import Mathlib

/-!
Verification of the hyperspec-viewer spectral viewer (Python sources
`spectral_viewer_v1.6.2.py` and `spectral_viewer_v1.6.7.py`) via a shallow
embedding in Lean 4.  Python ints are modelled as `Nat`/`Int`; IEEE-754
floating point values are modelled by the type `NF` below (NaN, ±inf, or an
exact rational); fallible operations return `Option`.
-/

namespace SpectralViewer

/-! ## `_safe_window_length` (identical in v1.6.2 and v1.6.7)

```python
def _safe_window_length(n, base=5, min_win=3):
    if n < min_win: return None
    k = base if n >= base else (n | 1)
    k = max(min_win, k)
    return k if k <= n else None
```
-/

def safe_window_length (n : Nat) (base : Nat := 5) (min_win : Nat := 3) :
    Option Nat :=
  if n < min_win then none
  else
    let k := if n ≥ base then base else (n ||| 1)
    let k := max min_win k
    if k ≤ n then some k else none

/-! ## `_canon_poly` (identical in v1.6.2 and v1.6.7)

```python
def _canon_poly(self, verts) -> tuple:
    V = tuple((int(x), int(y)) for x, y in (verts or []))
    if len(V) < 3:
        return V
    rotations = [V[i:] + V[:i] for i in range(len(V))]
    rev = V[::-1]
    rotations += [rev[i:] + rev[:i] for i in range(len(rev))]
    return min(rotations)
```

`lexLe` is Python's lexicographic `<=` on tuples of integer pairs, and
`min_lex` is Python's `min` over a list of such tuples.
-/

def lexLe : List (Int × Int) → List (Int × Int) → Bool
  | [], _ => true
  | _ :: _, [] => false
  | (a1, a2) :: as, (b1, b2) :: bs =>
    if a1 < b1 then true
    else if b1 < a1 then false
    else if a2 < b2 then true
    else if b2 < a2 then false
    else lexLe as bs

def min_lex : List (List (Int × Int)) → List (Int × Int)
  | [] => []
  | [a] => a
  | a :: b :: rest => if lexLe a (min_lex (b :: rest)) then a else min_lex (b :: rest)

/-- The candidate list built by `_canon_poly`: all rotations of `V` followed
by all rotations of its reverse. -/
def poly_candidates (V : List (Int × Int)) : List (List (Int × Int)) :=
  (List.range V.length).map (fun i => V.drop i ++ V.take i) ++
  (List.range V.reverse.length).map (fun i => V.reverse.drop i ++ V.reverse.take i)

def canon_poly (verts : List (Int × Int)) : List (Int × Int) :=
  if verts.length < 3 then verts else min_lex (poly_candidates verts)

/-! ## A model of IEEE-754 floating-point values

`NF` is NaN, `+inf`, `-inf`, or an exact rational.  Arithmetic follows the
IEEE special-value rules; finite arithmetic is exact rationals (the shallow
embedding abstracts rounding of intermediate results, except for the
explicit `float32` casts done by `np.asarray(..., dtype=np.float32)` /
`.astype(np.float32)`, which are modelled exactly by `cast32` below). -/

inductive NF where
  | nan : NF
  | inf : NF
  | ninf : NF
  | fin : ℚ → NF
deriving DecidableEq

def NF.isNan : NF → Bool
  | nan => true
  | _ => false

def NF.isFinite : NF → Bool
  | fin _ => true
  | _ => false

def NF.neg : NF → NF
  | nan => nan
  | inf => ninf
  | ninf => inf
  | fin x => fin (-x)

def NF.add : NF → NF → NF
  | nan, _ => nan
  | _, nan => nan
  | inf, ninf => nan
  | ninf, inf => nan
  | inf, _ => inf
  | _, inf => inf
  | ninf, _ => ninf
  | _, ninf => ninf
  | fin a, fin b => fin (a + b)

def NF.sub (a b : NF) : NF := NF.add a (NF.neg b)

def NF.mul : NF → NF → NF
  | nan, _ => nan
  | _, nan => nan
  | inf, inf => inf
  | inf, ninf => ninf
  | ninf, inf => ninf
  | ninf, ninf => inf
  | inf, fin b => if 0 < b then inf else if b < 0 then ninf else nan
  | fin a, inf => if 0 < a then inf else if a < 0 then ninf else nan
  | ninf, fin b => if 0 < b then ninf else if b < 0 then inf else nan
  | fin a, ninf => if 0 < a then ninf else if a < 0 then inf else nan
  | fin a, fin b => fin (a * b)

def NF.div : NF → NF → NF
  | nan, _ => nan
  | _, nan => nan
  | inf, inf => nan
  | inf, ninf => nan
  | ninf, inf => nan
  | ninf, ninf => nan
  | inf, fin b => if b < 0 then ninf else inf
  | ninf, fin b => if b < 0 then inf else ninf
  | fin _, inf => fin 0
  | fin _, ninf => fin 0
  | fin a, fin b =>
    if b = 0 then (if a = 0 then nan else if a < 0 then ninf else inf)
    else fin (a / b)

/-- IEEE comparison `<`: false whenever either side is NaN. -/
def NF.lt : NF → NF → Bool
  | nan, _ => false
  | _, nan => false
  | ninf, ninf => false
  | ninf, _ => true
  | _, ninf => false
  | inf, _ => false
  | fin _, inf => true
  | fin a, fin b => a < b

/-- `np.nanmax`: maximum over the non-NaN entries, NaN if there are none. -/
def nanmax (l : List NF) : NF :=
  match l.filter (fun v => !v.isNan) with
  | [] => NF.nan
  | a :: rest => rest.foldl (fun acc v => if NF.lt acc v then v else acc) a

/-- `np.nanmean`: mean of the non-NaN entries, NaN if there are none.
This is the *exact-arithmetic* idealization (no rounding of the sum or the
division); it is adequate only for conclusions that do not depend on
rounding, such as the configuration-noninterference of the raw polygon
statistics.  `nanmeanR` below is the rounding-aware model. -/
def nanmeanL (y : List NF) : NF :=
  let fs := y.filter (fun v => !v.isNan)
  if fs.length = 0 then NF.nan
  else NF.div (fs.foldl NF.add (NF.fin 0)) (NF.fin fs.length)

/-- `np.clip(v, lo, hi)` with finite bounds: NaN propagates. -/
def NF.clip (lo hi : ℚ) : NF → NF
  | nan => nan
  | inf => fin hi
  | ninf => fin lo
  | fin x => fin (max lo (min x hi))

/-- `np.sqrt` in NF terms; `f` stands for the exact real square root on
nonnegative rationals (any such function: the claims only use that it is
total on nonnegatives and sends `0` to `0`). -/
def sqrtNF (f : ℚ → ℚ) : NF → NF
  | NF.nan => NF.nan
  | NF.inf => NF.inf
  | NF.ninf => NF.nan
  | NF.fin x => if x < 0 then NF.nan else NF.fin (f x)

/-- `-np.log10` in NF terms; `f` stands for the exact real `x ↦ -log10 x`
on positive rationals.  `-log10 inf = -inf`, `-log10 0 = +inf`, negative or
NaN arguments give NaN. -/
def neglog10NF (f : ℚ → ℚ) : NF → NF
  | NF.nan => NF.nan
  | NF.inf => NF.ninf
  | NF.ninf => NF.nan
  | NF.fin x => if x < 0 then NF.nan else if x = 0 then NF.inf else NF.fin (f x)

/-! ### Exact IEEE-754 binary32 rounding (`np.float32` cast)

Modelled from the IEEE-754 round-to-nearest-even semantics of the numpy
`float32` dtype: find the binade exponent `e ∈ [-126, 127]`, round onto the
grid of spacing `2^(e-23)` with ties to even, and overflow to infinity at
`2^128`. -/

def pow2z (e : Int) : ℚ :=
  if 0 ≤ e then ((2 : ℚ) ^ e.toNat) else ((2 : ℚ) ^ (-e).toNat)⁻¹

/-- Round half to even. -/
def rhe (q : ℚ) : Int :=
  let f := ⌊q⌋
  if q - f < 1 / 2 then f
  else if (1 : ℚ) / 2 < q - f then f + 1
  else if f % 2 = 0 then f else f + 1

/-- Largest `e ∈ [-126, fuel-127]` with `2^e ≤ a`, defaulting to `-126`
(subnormal range). -/
def exp32aux (a : ℚ) : Nat → Int
  | 0 => -126
  | Nat.succ k => if pow2z ((k : Int) - 126) ≤ a then (k : Int) - 126
                  else exp32aux a k

/-- Cast an exact rational to the nearest IEEE binary32 value. -/
def cast32 (q : ℚ) : NF :=
  if q = 0 then NF.fin 0
  else
    let a := |q|
    let e := exp32aux a 254
    let sp := pow2z (e - 23)
    let m := rhe (a / sp)
    let v := (m : ℚ) * sp
    if pow2z 128 ≤ v then (if q < 0 then NF.ninf else NF.inf)
    else NF.fin (if q < 0 then -v else v)

/-- `np.asarray(_, dtype=np.float32)` on a single value: infinities and NaN
are preserved, finite values are rounded to binary32. -/
def cast32nf : NF → NF
  | NF.fin x => cast32 x
  | v => v

/-! ## `_apply_mode` (v1.6.7)

```python
def _apply_mode(self, y):
    y = np.asarray(y, dtype=np.float32)
    mode = self.mode_var.get()
    if mode == "Reflectance":
        return y
    if mode == "Absorbance":
        maxv = float(np.nanmax(y)) if y.size else 0.0
        if np.isfinite(maxv) and maxv > 1.5:
            R = y * (1.0 / 65535.0)
        else:
            R = y
        R = np.clip(R, 1e-8, 1.0)
        A = -np.log10(R)
        return A.astype(np.float32, copy=False)
    return y
```

`neglog` stands for the exact real function `x ↦ -log10 x` on positive
arguments.  The float literals `1e-8`, `1.5` and `1.0/65535.0` are taken at
their exact decimal values (their binary rounding does not affect any claim
settled here). -/

def apply_mode (mode : String) (neglog : ℚ → ℚ) (y : List NF) : List NF :=
  let y' := y.map cast32nf
  if mode = "Reflectance" then y'
  else if mode = "Absorbance" then
    let maxv := if y'.length ≠ 0 then nanmax y' else NF.fin 0
    let R := if maxv.isFinite && NF.lt (NF.fin (3 / 2)) maxv then
               y'.map (fun v => NF.mul v (NF.fin (1 / 65535)))
             else y'
    let Rc := R.map (NF.clip (1 / 100000000) 1)
    let A := Rc.map (neglog10NF neglog)
    A.map cast32nf
  else y'

/-! ## `_apply_snv` (identical in v1.6.2 and v1.6.7)

```python
def _apply_snv(self, y):
    m = np.nanmean(y)
    s = np.nanstd(y)
    if not np.isfinite(s) or s == 0:
        return y - m
    return (y - m) / s
```

`np.nanstd(y)` (with the default `ddof=0`) is
`sqrt(nanmean((y - nanmean(y))**2))`; `sqrtf` stands for the exact real
square root.

Because the zero-variance behaviour of `_apply_snv` is sensitive to
floating-point rounding (the float64 mean of a constant vector need not
equal the constant: `np.nanmean([0.1]*3) = 0.10000000000000002`), the SNV
stage is modelled twice: `nanstdNF`/`apply_snv` are the exact-arithmetic
idealization, and `nanmeanR`/`nanstdR`/`apply_snv_r` below thread an
explicit rounding function `rnd` through every elementary operation.
`rnd = id` recovers the exact model (`apply_snv_r_id`). -/

def nanstdNF (sqrtf : ℚ → ℚ) (y : List NF) : NF :=
  let m := nanmeanL y
  sqrtNF sqrtf (nanmeanL (y.map (fun v => NF.mul (NF.sub v m) (NF.sub v m))))

def apply_snv (sqrtf : ℚ → ℚ) (y : List NF) : List NF :=
  let m := nanmeanL y
  let s := nanstdNF sqrtf y
  if !s.isFinite || s == NF.fin 0 then y.map (fun v => NF.sub v m)
  else y.map (fun v => NF.div (NF.sub v m) s)

/-- Apply one step of floating-point rounding: finite results pass through
`rnd` (the rounding of the working precision, e.g. IEEE-754 float64
round-to-nearest-even); NaN and infinities are unchanged.  `rnd = id` is
exact arithmetic. -/
def NF.rnd (rnd : ℚ → ℚ) : NF → NF
  | NF.fin x => NF.fin (rnd x)
  | v => v

/-- Rounded elementary operations (each numpy elementary operation rounds
its result once). -/
def addR (rnd : ℚ → ℚ) (a b : NF) : NF := (NF.add a b).rnd rnd

def subR (rnd : ℚ → ℚ) (a b : NF) : NF := (NF.sub a b).rnd rnd

def mulR (rnd : ℚ → ℚ) (a b : NF) : NF := (NF.mul a b).rnd rnd

def divR (rnd : ℚ → ℚ) (a b : NF) : NF := (NF.div a b).rnd rnd

/-- `np.nanmean` with explicit rounding: sum of the non-NaN entries (each
addition rounded), divided by their count (rounded).  The sum is a
sequential left fold; numpy's pairwise summation coincides with it on short
vectors, and no conclusion proved here depends on the association order. -/
def nanmeanR (rnd : ℚ → ℚ) (y : List NF) : NF :=
  let fs := y.filter (fun v => !v.isNan)
  if fs.length = 0 then NF.nan
  else divR rnd (fs.foldl (addR rnd) (NF.fin 0)) (NF.fin fs.length)

/-- `np.nanstd` (`ddof=0`) with explicit rounding. -/
def nanstdR (rnd : ℚ → ℚ) (sqrtf : ℚ → ℚ) (y : List NF) : NF :=
  let m := nanmeanR rnd y
  sqrtNF sqrtf
    (nanmeanR rnd (y.map (fun v => mulR rnd (subR rnd v m) (subR rnd v m))))

/-- `_apply_snv` with explicit floating-point rounding. -/
def apply_snv_r (rnd : ℚ → ℚ) (sqrtf : ℚ → ℚ) (y : List NF) : List NF :=
  let m := nanmeanR rnd y
  let s := nanstdR rnd sqrtf y
  if !s.isFinite || s == NF.fin 0 then y.map (fun v => subR rnd v m)
  else y.map (fun v => divR rnd (subR rnd v m) s)

/-! ## `_apply_smoothing` (v1.6.7 and v1.6.2)

```python
# v1.6.7                                     # v1.6.2
def _apply_smoothing(self, y):               def _apply_smoothing(self, y):
    try:                                         try:
        n = len(y)                                   n = len(y); poly = SG_POLYORDER
        poly = SG_POLYORDER                          win = self._safe_window_length(
        win = self._safe_window_length(                  n, base=SG_BASE_WIN,
            n, base=self.sg_window,                      min_win=SG_MIN_WIN)
            min_win=SG_MIN_WIN)                      if win is None: return y
        if win is None:                              if win <= poly:
            return y                                     win = poly + 3
        if win <= poly:                                  if win % 2 == 0: win += 1
            win = poly + 3                           return savgol_filter(
            if win % 2 == 0:                             y, window_length=win,
                win += 1                                 polyorder=poly, mode="interp")
        deriv_map = {"0th": 0, "1st": 1,         except Exception:
                     "2nd": 2}                       n = len(y)
        deriv = deriv_map.get(                       k = self._safe_window_length(
            self.sg_deriv_var.get(), 0)                  n, base=7, min_win=3)
        res = savgol_filter(y,                       if k is None: return y
            window_length=win, polyorder=poly,       return np.convolve(
            deriv=deriv, mode="interp")                  y, np.ones(k) / k, mode="same")
        if deriv == 2:
            try: res = -res
            except Exception: pass
        return res
    except Exception:
        ... same fallback as v1.6.2 ...
```

`SG_POLYORDER = 2` and `SG_MIN_WIN = 3` in both versions.  `savgol` stands
for `scipy.signal.savgol_filter(y, window_length, polyorder, deriv,
mode="interp")`; a raised exception is `none`.  `convolve_ma` stands for the
moving-average fallback `np.convolve(y, np.ones(k) / k, mode="same")`.
Both are kept abstract: the equivalence claim holds for every behaviour of
the two library routines. -/

def deriv_map_get (s : String) : Nat :=
  if s = "0th" then 0 else if s = "1st" then 1 else if s = "2nd" then 2 else 0

def apply_smoothing_v167
    (savgol : List NF → Nat → Nat → Nat → Option (List NF))
    (convolve_ma : List NF → Nat → List NF)
    (sg_window : Nat) (sg_deriv : String) (y : List NF) : List NF :=
  let fallback :=
    match safe_window_length y.length 7 3 with
    | none => y
    | some k => convolve_ma y k
  match safe_window_length y.length sg_window 3 with
  | none => y
  | some win =>
    let poly := 2
    let win := if win ≤ poly then
                 (if (poly + 3) % 2 = 0 then poly + 3 + 1 else poly + 3)
               else win
    let deriv := deriv_map_get sg_deriv
    match savgol y win poly deriv with
    | some res => if deriv = 2 then res.map NF.neg else res
    | none => fallback

def apply_smoothing_v162
    (savgol : List NF → Nat → Nat → Nat → Option (List NF))
    (convolve_ma : List NF → Nat → List NF)
    (sg_base_win : Nat) (y : List NF) : List NF :=
  let fallback :=
    match safe_window_length y.length 7 3 with
    | none => y
    | some k => convolve_ma y k
  match safe_window_length y.length sg_base_win 3 with
  | none => y
  | some win =>
    let poly := 2
    let win := if win ≤ poly then
                 (if (poly + 3) % 2 = 0 then poly + 3 + 1 else poly + 3)
               else win
    match savgol y win poly 0 with
    | some res => res
    | none => fallback

/-! ## `_delete_polygon_near` (v1.6.7)

A polygon is its vertex list.  `contains_point` models
`matplotlib.path.Path(vs).contains_point((x, y))` by the standard even-odd
crossing rule (ray towards `+x`).  `pt_seg_dist_sq` is the square of the
`_pt_seg_dist` helper; the source compares `sqrt(d2) <= rad2`, which for
nonnegative radii is equivalent to `d2 <= rad2^2`. -/

abbrev Poly := List (Int × Int)

/-- `zip(vs, vs[1:] + vs[:1])`: the polygon's closed edge cycle. -/
def edgesOf (vs : Poly) : List ((Int × Int) × (Int × Int)) :=
  vs.zip (vs.drop 1 ++ vs.take 1)

def contains_point (vs : Poly) (px py : ℚ) : Bool :=
  ((edgesOf vs).countP (fun e =>
      let x1 : ℚ := e.1.1
      let y1 : ℚ := e.1.2
      let x2 : ℚ := e.2.1
      let y2 : ℚ := e.2.2
      (decide (y1 > py) != decide (y2 > py)) &&
        decide (px < x1 + (x2 - x1) * (py - y1) / (y2 - y1)))) % 2 == 1

def pt_seg_dist_sq (px py x1 y1 x2 y2 : ℚ) : ℚ :=
  let vx := x2 - x1
  let vy := y2 - y1
  let wx := px - x1
  let wy := py - y1
  let denom := vx * vx + vy * vy
  if denom ≤ 1 / 1000000000000 then
    let dx := px - x1
    let dy := py - y1
    dx * dx + dy * dy
  else
    let t := max 0 (min 1 ((wx * vx + wy * vy) / denom))
    let nx := x1 + t * vx
    let ny := y1 + t * vy
    let dx := px - nx
    let dy := py - ny
    dx * dx + dy * dy

/-- Tier-1 test on one polygon: at least 3 vertices and exact containment. -/
def cont_hit (x y : Int) (vs : Poly) : Bool :=
  decide (3 ≤ vs.length) && contains_point vs x y

/-- Vertex test: some vertex within `rad` (`(vx-x)**2 + (vy-y)**2 <= rad*rad`). -/
def vert_hit (rad : ℚ) (x y : Int) (vs : Poly) : Bool :=
  vs.any (fun v =>
    decide ((((v.1 - x : Int) : ℚ)) * ((v.1 - x : Int) : ℚ)
      + (((v.2 - y : Int) : ℚ)) * ((v.2 - y : Int) : ℚ) ≤ rad * rad))

/-- Edge test: some edge within `rad2` (compared on squares). -/
def edge_hit (rad2 : ℚ) (x y : Int) (vs : Poly) : Bool :=
  (edgesOf vs).any (fun e =>
    decide (pt_seg_dist_sq x y e.1.1 e.1.2 e.2.1 e.2.2 ≤ rad2 * rad2))

/-- Tier-2/3 test on one polygon, as the source's second loop performs it:
vertices, then edges, of the same polygon. -/
def near_hit (rad : ℚ) (x y : Int) (vs : Poly) : Bool :=
  decide (3 ≤ vs.length) && (vert_hit rad x y vs || edge_hit (rad * (3 / 2)) x y vs)

/-- Index of the first list element satisfying `p` (the `for i, pg in
enumerate(...)` loops). -/
def find_first (p : Poly → Bool) : List Poly → Option Nat
  | [] => none
  | vs :: rest => if p vs then some 0 else (find_first p rest).map (· + 1)

/-- `_delete_polygon_near`: returns whether a polygon was removed and the
remaining polygon list.  First loop: containment over all polygons; second
loop: per polygon, vertex test then edge test. -/
def delete_polygon_near (polys : List Poly) (x y : Int) (rad : ℚ) :
    Bool × List Poly :=
  if polys = [] then (false, polys)
  else
    match find_first (cont_hit x y) polys with
    | some i => (true, polys.eraseIdx i)
    | none =>
      match find_first (near_hit rad x y) polys with
      | some i => (true, polys.eraseIdx i)
      | none => (false, polys)

/-! ## Point cache: `_invalidate_point_cache` and `_get_point_proc_slice`
(v1.6.7)

Caches (Python dicts) are modelled as functions to `Option`.  A processed
key is the raw key followed by the processing flags and the slice bounds
(`key_proc = key_raw + (flags, i_lo, i_hi)`); the source's prefix test
`k[0:3] == key_raw` is the first component of the typed key. -/

abbrev RawKey := String × Int × Int
abbrev Flags := String × Bool × Bool × Bool
abbrev ProcKey := RawKey × Flags × Nat × Nat

structure Caches where
  pt_raw : RawKey → Option (List NF)
  pt_proc : ProcKey → Option (List NF)

/-- The ambient viewer state that `_get_point_proc_slice` reads: the current
source path, the current cube (`self.data[y, x, :]` as `cur_data x y`),
other loaded sources (`_get_hsi_for_source`), the current processing flags
(`_proc_flags()`), and `pipeline`, which stands for
`_process_spectrum(_apply_mode(y_slice))` under those flags. -/
structure Env where
  cur_src : String
  cur_data : Int → Int → List NF
  sources : String → Option (Int → Int → List NF)
  flags : Flags
  pipeline : List NF → List NF

def invalidate_point_cache (st : Caches) (src : String) (x y : Int) : Caches :=
  let key : RawKey := (src, x, y)
  { pt_raw := fun k => if k = key then none else st.pt_raw k,
    pt_proc := fun k => if k.1 = key then none else st.pt_proc k }

/-- `_get_point_proc_slice` (processed-spectrum part): raw-cache lookup with
fill-on-miss from the cube, then processed-cache lookup with fill-on-miss
by the processing pipeline on the slice `y_full[i_lo : i_hi+1]`. -/
def get_point_proc_slice (env : Env) (st : Caches) (src : String) (x y : Int)
    (i_lo i_hi : Nat) : Option (List NF) × Caches :=
  let key_raw : RawKey := (src, x, y)
  let load :=
    match st.pt_raw key_raw with
    | some v => some (v, st)
    | none =>
      if src = env.cur_src then
        let v := env.cur_data x y
        some (v, { st with
          pt_raw := fun k => if k = key_raw then some v else st.pt_raw k })
      else
        match env.sources src with
        | none => none
        | some d =>
          let v := d x y
          some (v, { st with
            pt_raw := fun k => if k = key_raw then some v else st.pt_raw k })
  match load with
  | none => (none, st)
  | some (y_full, st1) =>
    let key_proc : ProcKey := (key_raw, env.flags, i_lo, i_hi)
    match st1.pt_proc key_proc with
    | some y_proc => (some y_proc, st1)
    | none =>
      let y_proc := env.pipeline ((y_full.drop i_lo).take (i_hi + 1 - i_lo))
      (some y_proc, { st1 with
        pt_proc := fun k => if k = key_proc then some y_proc else st1.pt_proc k })

/-! ## `_get_raw_spectrum_on_master` (v1.6.7)

`np.interp(wl_master, uniq_wl, y_uniq, left=np.nan, right=np.nan)` on a
strictly increasing grid.  `sortPairs` is the stable sort realized by
`np.argsort` followed by fancy indexing, and `dedupSorted` keeps the first
occurrence of each wavelength, as `np.unique(..., return_index=True)`
followed by `y_sorted[idx_start]` does. -/

def insertPair (p : ℚ × NF) : List (ℚ × NF) → List (ℚ × NF)
  | [] => [p]
  | q :: rest => if q.1 < p.1 then q :: insertPair p rest else p :: q :: rest

def sortPairs : List (ℚ × NF) → List (ℚ × NF)
  | [] => []
  | p :: rest => insertPair p (sortPairs rest)

def dedupSorted : List (ℚ × NF) → List (ℚ × NF)
  | [] => []
  | [p] => [p]
  | p :: q :: rest =>
    if p.1 = q.1 then dedupSorted (p :: rest) else p :: dedupSorted (q :: rest)
termination_by l => l.length

/-- Linear interpolation at `t` over ascending sample points, with explicit
values for `t` below the first and above the last sample. -/
def np_interp (t : ℚ) : List (ℚ × NF) → NF → NF → NF
  | [], l, _ => l
  | [p], l, r => if t < p.1 then l else if p.1 < t then r else p.2
  | p :: q :: rest, l, r =>
    if t < p.1 then l
    else if t ≤ q.1 then
      NF.add p.2 (NF.div (NF.mul (NF.sub q.2 p.2) (NF.fin (t - p.1)))
        (NF.fin (q.1 - p.1)))
    else np_interp t (q :: rest) l r

/-- `np.clip(v, lo, hi)` on Python ints. -/
def intClip (v lo hi : Int) : Int := max lo (min v hi)

/-- State read by `_get_raw_spectrum_on_master`: master-axis caller passes
`wl_master`; `data` is `self.data` (shape `(H, W)` and pixel access
`x ↦ y ↦ spectrum`), `wavelengths` is `self.wavelengths`, and `sources`
is `_get_hsi_for_source`. -/
structure MEnv where
  cur_src : String
  data : Option ((Nat × Nat) × (Int → Int → List NF))
  wavelengths : Option (List ℚ)
  sources : String → Option (((Nat × Nat) × (Int → Int → List NF)) × List ℚ)

def get_raw_spectrum_on_master (env : MEnv) (p_src : String) (px py : Int)
    (wl_master : List ℚ) : List NF :=
  let B := wl_master.length
  match env.data, env.wavelengths with
  | some ⟨(H, W), dat⟩, some _ =>
    if B = 0 then List.replicate B NF.nan
    else if p_src = env.cur_src then
      dat (intClip px 0 ((W : Int) - 1)) (intClip py 0 ((H : Int) - 1))
    else
      match env.sources p_src with
      | none => List.replicate B NF.nan
      | some ⟨⟨(Hs, Ws), d⟩, wl_src⟩ =>
        if wl_src.length = 0 then List.replicate B NF.nan
        else
          let y_src := d (intClip px 0 ((Ws : Int) - 1))
                         (intClip py 0 ((Hs : Int) - 1))
          let pairs := dedupSorted (sortPairs (wl_src.zip y_src))
          wl_master.map (fun t => np_interp t pairs NF.nan NF.nan)
  | _, _ => List.replicate B NF.nan

/-! ## `_compute_polygon_raw_stats` and the polygon columns of
`on_export_csv_spectra_only` (v1.6.7)

The polygon is rasterized over the source cube's `H × W` grid in row-major
order (`np.mgrid` / `contains_points` / `flatnonzero`); statistics are
NaN-aware mean and population standard deviation (`ddof=0`) per band over
the raw, untransformed pixel spectra.  The processing configuration is part
of the environment but is never read — that is the content of claim C9. -/

structure ProcCfg where
  mode : String
  denoise : Bool
  smooth : Bool
  snv : Bool
  med_window : Nat
  sg_window : Nat
  sg_deriv : String

structure PolyEnv where
  cur_src : String
  data : Option ((Nat × Nat × Nat) × (Nat → Nat → List NF))
  wavelengths : Option (List ℚ)
  sources : String → Option (((Nat × Nat × Nat) × (Nat → Nat → List NF)) × List ℚ)
  cfg : ProcCfg

/-- The in-polygon pixels `(x, y)`, in the row-major order produced by
`np.mgrid[0:H, 0:W]` and `flatnonzero`. -/
def polygon_pixels (verts : List (Int × Int)) (H W : Nat) : List (Nat × Nat) :=
  (((List.range H).map (fun yy => (List.range W).map (fun xx => (xx, yy)))).flatten).filter
    (fun pt => contains_point verts (pt.1 : ℚ) (pt.2 : ℚ))

def nanmean_cols (rows : List (List NF)) (B : Nat) : List NF :=
  (List.range B).map (fun b => nanmeanL (rows.map (fun r => r.getD b NF.nan)))

def nanstd_cols (sqrtf : ℚ → ℚ) (rows : List (List NF)) (B : Nat) : List NF :=
  (List.range B).map (fun b => nanstdNF sqrtf (rows.map (fun r => r.getD b NF.nan)))

def compute_polygon_raw_stats (sqrtf : ℚ → ℚ) (env : PolyEnv) (pg_src : String)
    (verts : List (Int × Int)) :
    Option (List ℚ × List NF × List NF × Nat) :=
  let cube? :=
    if pg_src = env.cur_src then
      match env.data, env.wavelengths with
      | some d, some wl => some (d, wl)
      | _, _ => none
    else
      match env.sources pg_src with
      | some (d, wl) => if wl.length = 0 then none else some (d, wl)
      | none => none
  match cube? with
  | none => none
  | some (⟨(H, W, B), dat⟩, wl) =>
    if verts.length < 3 then none
    else
      let pix := polygon_pixels verts H W
      if pix.length = 0 then none
      else
        let D := pix.map (fun pt => dat pt.1 pt.2)
        some (wl, nanmean_cols D B, nanstd_cols sqrtf D B, pix.length)

/-- The `pgXXXX_mean` / `pgXXXX_std` columns built by
`on_export_csv_spectra_only` for one polygon:
`np.interp(wl, w_src, m_src, left=np.nan, right=np.nan)` and likewise for
the std row; `none` when the polygon yields no stats (the loop's
`continue`). -/
def export_polygon_columns (sqrtf : ℚ → ℚ) (env : PolyEnv) (wl_master : List ℚ)
    (pg_src : String) (verts : List (Int × Int)) :
    Option (List NF × List NF) :=
  match compute_polygon_raw_stats sqrtf env pg_src verts with
  | none => none
  | some (w_src, m_src, s_src, _) =>
    some (wl_master.map (fun t => np_interp t (w_src.zip m_src) NF.nan NF.nan),
          wl_master.map (fun t => np_interp t (w_src.zip s_src) NF.nan NF.nan))

theorem lexLe_refl : ∀ l, lexLe l l = true
  | [] => rfl
  | (a1, a2) :: as => by
    simp only [lexLe, lt_irrefl, if_false, if_neg (lt_irrefl a1), if_neg (lt_irrefl a2)]
    exact lexLe_refl as

theorem lexLe_total : ∀ a b, lexLe a b = true ∨ lexLe b a = true
  | [], _ => Or.inl rfl
  | _ :: _, [] => Or.inr rfl
  | (a1, a2) :: as, (b1, b2) :: bs => by
    simp only [lexLe]
    rcases lexLe_total as bs with h | h <;>
      split_ifs <;> simp_all <;> omega

theorem lexLe_trans : ∀ a b c, lexLe a b = true → lexLe b c = true → lexLe a c = true
  | [], _, _, _, _ => rfl
  | _ :: _, [], _, h, _ => by simp [lexLe] at h
  | _ :: _, _ :: _, [], _, h => by simp [lexLe] at h
  | (a1, a2) :: as, (b1, b2) :: bs, (c1, c2) :: cs, h1, h2 => by
    simp only [lexLe] at h1 h2 ⊢
    split_ifs at h1 h2 ⊢ <;> first
      | rfl
      | omega
      | (exact lexLe_trans as bs cs h1 h2)
      | simp_all

theorem lexLe_antisymm : ∀ a b, lexLe a b = true → lexLe b a = true → a = b
  | [], [], _, _ => rfl
  | [], _ :: _, _, h => by simp [lexLe] at h
  | _ :: _, [], h, _ => by simp [lexLe] at h
  | (a1, a2) :: as, (b1, b2) :: bs, h1, h2 => by
    simp only [lexLe] at h1 h2
    split_ifs at h1 h2 <;> first
      | (exfalso; omega)
      | (have h3 := lexLe_antisymm as bs h1 h2
         simp_all
         omega)
      | simp_all

theorem min_lex_mem : ∀ l, l ≠ [] → min_lex l ∈ l
  | [], h => absurd rfl h
  | [a], _ => List.mem_singleton_self a
  | a :: b :: rest, _ => by
    simp only [min_lex]
    split
    · exact List.mem_cons_self _ _
    · exact List.mem_cons_of_mem _ (min_lex_mem (b :: rest) (by simp))

theorem min_lex_le : ∀ l x, x ∈ l → lexLe (min_lex l) x = true
  | [], x, h => absurd h (List.not_mem_nil x)
  | [a], x, h => by
    rw [List.mem_singleton] at h
    subst h; exact lexLe_refl x
  | a :: b :: rest, x, h => by
    simp only [min_lex]
    rcases List.mem_cons.mp h with rfl | hx
    · split
      · exact lexLe_refl x
      · rcases lexLe_total x (min_lex (b :: rest)) with ht | ht
        · simp_all
        · exact ht
    · have hle := min_lex_le (b :: rest) x hx
      split
      · exact lexLe_trans _ _ _ (by assumption) hle
      · exact hle

theorem min_lex_eq_of_mem_iff {l₁ l₂ : List (List (Int × Int))}
    (h₁ : l₁ ≠ []) (h₂ : l₂ ≠ []) (h : ∀ x, x ∈ l₁ ↔ x ∈ l₂) :
    min_lex l₁ = min_lex l₂ :=
  lexLe_antisymm _ _
    (min_lex_le l₁ _ ((h _).mpr (min_lex_mem l₂ h₂)))
    (min_lex_le l₂ _ ((h _).mp (min_lex_mem l₁ h₁)))

theorem poly_candidates_ne_nil {V : List (Int × Int)} (h : 0 < V.length) :
    poly_candidates V ≠ [] := by
  simp only [poly_candidates]
  intro hc
  rcases List.append_eq_nil.mp hc with ⟨h1, _⟩
  rw [List.map_eq_nil, List.range_eq_nil] at h1
  omega

theorem mem_poly_candidates {V x} (h : 0 < V.length) :
    x ∈ poly_candidates V ↔
      (∃ n, x = V.rotate n) ∨ (∃ n, x = V.reverse.rotate n) := by
  simp only [poly_candidates, List.mem_append, List.mem_map, List.mem_range,
    List.length_reverse]
  constructor
  · rintro (⟨i, hi, rfl⟩ | ⟨i, hi, rfl⟩)
    · exact Or.inl ⟨i, (List.rotate_eq_drop_append_take hi.le).symm⟩
    · exact Or.inr ⟨i, (List.rotate_eq_drop_append_take
        (by rw [List.length_reverse]; exact hi.le)).symm⟩
  · rintro (⟨n, rfl⟩ | ⟨n, rfl⟩)
    · refine Or.inl ⟨n % V.length, Nat.mod_lt _ h, ?_⟩
      rw [← List.rotate_mod, List.rotate_eq_drop_append_take (Nat.mod_lt _ h).le]
    · refine Or.inr ⟨n % V.length, Nat.mod_lt _ h, ?_⟩
      rw [← List.rotate_mod, List.length_reverse,
        List.rotate_eq_drop_append_take (by rw [List.length_reverse]; exact (Nat.mod_lt _ h).le)]

theorem exists_rotate_rotate {α} (W : List α) (k : Nat) (hW : 0 < W.length)
    (x : List α) :
    (∃ n, x = (W.rotate k).rotate n) ↔ ∃ n, x = W.rotate n := by
  constructor
  · rintro ⟨n, rfl⟩
    exact ⟨k + n, by rw [List.rotate_rotate]⟩
  · rintro ⟨n, rfl⟩
    refine ⟨(W.length - k % W.length) + n, ?_⟩
    rw [List.rotate_rotate]
    have hmod := Nat.div_add_mod k W.length
    have hlt : k % W.length < W.length := Nat.mod_lt _ hW
    have hk : k + ((W.length - k % W.length) + n)
        = W.length * (k / W.length + 1) + n := by
      rw [Nat.mul_add, Nat.mul_one]
      omega
    rw [hk, ← List.rotate_rotate, List.rotate_length_mul]

theorem mem_poly_candidates_rotate {V : List (Int × Int)} {x} (k : Nat)
    (h : 0 < V.length) :
    x ∈ poly_candidates (V.rotate k) ↔ x ∈ poly_candidates V := by
  have hlen : 0 < (V.rotate k).length := by rwa [List.length_rotate]
  rw [mem_poly_candidates hlen, mem_poly_candidates h,
    exists_rotate_rotate V k h, List.reverse_rotate,
    exists_rotate_rotate V.reverse _ (by rwa [List.length_reverse])]

theorem mem_poly_candidates_reverse {V : List (Int × Int)} {x}
    (h : 0 < V.length) :
    x ∈ poly_candidates V.reverse ↔ x ∈ poly_candidates V := by
  rw [mem_poly_candidates (by rwa [List.length_reverse]),
    mem_poly_candidates h, List.reverse_reverse, or_comm]

end SpectralViewer

open SpectralViewer

/-- C1: `_safe_window_length` is safe for every argument triple: for all
`n ≥ 0`, `base ≥ 1`, `min_win ≥ 1`, it returns `none` whenever `n < min_win`,
and whenever it returns a number `k`, `k ≤ n` (the `n | 1` rounding branch
never escapes as a result larger than `n`). -/
theorem C1_safe_window_length_safe (n base min_win : Nat)
    (hbase : 1 ≤ base) (hmin : 1 ≤ min_win) :
    (n < min_win → safe_window_length n base min_win = none) ∧
    (∀ k, safe_window_length n base min_win = some k → k ≤ n) := by
  constructor
  · intro h
    simp [safe_window_length, h]
  · intro k hk
    unfold safe_window_length at hk
    split at hk
    · exact absurd hk (by simp)
    · dsimp only at hk
      split at hk <;> split at hk <;> simp_all <;> omega

/-- Witness for C1 at `n = 2, base = 5, min_win = 3`: the function returns
`none` because `2 < 3`. -/
theorem C1_witness : safe_window_length 2 5 3 = none :=
  (C1_safe_window_length_safe 2 5 3 (by decide) (by decide)).1 (by decide)

/-- C2: polygon canonicalization is rotation- and reflection-invariant: for
every vertex list `V` with at least 3 integer points and every rotation
amount `k`, `_canon_poly (rotate V k) = _canon_poly V` and
`_canon_poly V.reverse = _canon_poly V`; moreover the canonical form is the
lexicographically smallest tuple among all rotations of `V` and of its
reverse. -/
theorem C2_canon_poly_invariant (V : List (Int × Int)) (k : Nat)
    (h : 3 ≤ V.length) :
    canon_poly (V.rotate k) = canon_poly V ∧
    canon_poly V.reverse = canon_poly V ∧
    canon_poly V ∈ poly_candidates V ∧
    ∀ c ∈ poly_candidates V, lexLe (canon_poly V) c = true := by
  have h0 : 0 < V.length := by omega
  have hcanon : canon_poly V = min_lex (poly_candidates V) := by
    rw [canon_poly, if_neg (by omega)]
  refine ⟨?_, ?_, ?_, ?_⟩
  · rw [canon_poly, if_neg (by rw [List.length_rotate]; omega), hcanon]
    exact min_lex_eq_of_mem_iff
      (poly_candidates_ne_nil (by rwa [List.length_rotate]))
      (poly_candidates_ne_nil h0)
      (fun x => mem_poly_candidates_rotate k h0)
  · rw [canon_poly, if_neg (by rw [List.length_reverse]; omega), hcanon]
    exact min_lex_eq_of_mem_iff
      (poly_candidates_ne_nil (by rwa [List.length_reverse]))
      (poly_candidates_ne_nil h0)
      (fun x => mem_poly_candidates_reverse h0)
  · rw [hcanon]
    exact min_lex_mem _ (poly_candidates_ne_nil h0)
  · intro c hc
    rw [hcanon]
    exact min_lex_le _ _ hc

/-- Witness for C2 at `V = [(0,0),(4,0),(0,3)]`, `k = 1`: rotating the
vertex list does not change the canonical polygon. -/
theorem C2_witness :
    canon_poly (([(0,0),(4,0),(0,3)] : List (Int × Int)).rotate 1)
      = canon_poly ([(0,0),(4,0),(0,3)] : List (Int × Int)) :=
  (C2_canon_poly_invariant [(0,0),(4,0),(0,3)] 1 (by decide)).1

/-! ### Facts about the binary32 cast -/

theorem pow2z_eq_zpow (e : Int) : pow2z e = (2 : ℚ) ^ e := by
  rw [pow2z]
  split
  · rw [← zpow_natCast, Int.toNat_of_nonneg ‹0 ≤ e›]
  · rw [← zpow_natCast, Int.toNat_of_nonneg (by omega : (0 : Int) ≤ -e),
      ← zpow_neg, neg_neg]

theorem pow2z_pos (e : Int) : 0 < pow2z e := by
  rw [pow2z_eq_zpow]; positivity

theorem pow2z_mono {e f : Int} (h : e ≤ f) : pow2z e ≤ pow2z f := by
  rw [pow2z_eq_zpow, pow2z_eq_zpow]
  exact zpow_le_zpow_right₀ (by norm_num) h

theorem rhe_le (q : ℚ) : (rhe q : ℚ) ≤ q + 1 := by
  have h1 := Int.floor_le q
  rw [rhe]
  split_ifs <;> push_cast <;> linarith

theorem exp32aux_le (a : ℚ) : ∀ n, exp32aux a n ≤ (n : Int) - 126
  | 0 => le_refl _
  | Nat.succ k => by
    rw [exp32aux]
    split
    · push_cast; omega
    · have := exp32aux_le a k
      push_cast
      omega

theorem cast32_no_overflow {a : ℚ} (h8 : a ≤ 8) :
    ¬ pow2z 128 ≤ (rhe (a / pow2z (exp32aux a 254 - 23)) : ℚ)
        * pow2z (exp32aux a 254 - 23) := by
  intro hcon
  have hsp_pos : 0 < pow2z (exp32aux a 254 - 23) := pow2z_pos _
  have hm : (rhe (a / pow2z (exp32aux a 254 - 23)) : ℚ)
      ≤ a / pow2z (exp32aux a 254 - 23) + 1 := rhe_le _
  have hv : (rhe (a / pow2z (exp32aux a 254 - 23)) : ℚ)
        * pow2z (exp32aux a 254 - 23)
      ≤ (a / pow2z (exp32aux a 254 - 23) + 1) * pow2z (exp32aux a 254 - 23) :=
    mul_le_mul_of_nonneg_right hm hsp_pos.le
  have heq : (a / pow2z (exp32aux a 254 - 23) + 1) * pow2z (exp32aux a 254 - 23)
      = a + pow2z (exp32aux a 254 - 23) := by
    field_simp
  have hsp_le : pow2z (exp32aux a 254 - 23) ≤ pow2z 105 :=
    pow2z_mono (by have := exp32aux_le a 254; omega)
  have h105 : pow2z 105 = (2 : ℚ) ^ (105 : Nat) := by
    rw [pow2z, if_pos (by norm_num : (0 : Int) ≤ 105)]
    norm_num [show (105 : Int).toNat = 105 from rfl]
  have h128 : pow2z 128 = (2 : ℚ) ^ (128 : Nat) := by
    rw [pow2z, if_pos (by norm_num : (0 : Int) ≤ 128)]
    norm_num [show (128 : Int).toNat = 128 from rfl]
  have hlit : (8 : ℚ) + (2 : ℚ) ^ (105 : Nat) < (2 : ℚ) ^ (128 : Nat) := by
    norm_num
  rw [heq] at hv
  rw [h128] at hcon
  rw [h105] at hsp_le
  linarith

theorem cast32_fin_of_bounds {q : ℚ} (h0 : 0 ≤ q) (h8 : q ≤ 8) :
    ∃ r, cast32 q = NF.fin r := by
  by_cases hq : q = 0
  · exact ⟨0, by simp [cast32, hq]⟩
  · have habs : |q| = q := abs_of_nonneg h0
    simp only [cast32, if_neg hq, habs]
    rw [if_neg (cast32_no_overflow h8)]
    exact ⟨_, rfl⟩

theorem cast32_isNan (q : ℚ) : (cast32 q).isNan = false := by
  simp only [cast32]
  split_ifs <;> rfl

theorem cast32nf_isNan (v : NF) : (cast32nf v).isNan = v.isNan := by
  cases v with
  | fin x =>
    show (cast32 x).isNan = (NF.fin x).isNan
    rw [cast32_isNan]
    rfl
  | nan => rfl
  | inf => rfl
  | ninf => rfl

theorem cast32_zero : cast32 0 = NF.fin 0 := by
  simp [cast32]

theorem cast32_pow300 : cast32 ((2 : ℚ) ^ 300) = NF.inf := by
  have habs : |(2 : ℚ) ^ 300| = 2 ^ 300 := abs_of_nonneg (by positivity)
  have hp : pow2z 127 = (2 : ℚ) ^ (127 : Nat) := by
    rw [pow2z, if_pos (by norm_num : (0 : Int) ≤ 127)]
    norm_num [show (127 : Int).toNat = 127 from rfl]
  have he : exp32aux ((2 : ℚ) ^ 300) 254 = 127 := by
    rw [show (254 : Nat) = Nat.succ 253 from rfl, exp32aux,
      show ((253 : Nat) : Int) - 126 = 127 by norm_num, hp,
      if_pos (by norm_num : (2 : ℚ) ^ (127 : Nat) ≤ 2 ^ 300)]
  have h104 : pow2z (127 - 23) = (2 : ℚ) ^ (104 : Nat) := by
    rw [show (127 : Int) - 23 = 104 by norm_num, pow2z,
      if_pos (by norm_num : (0 : Int) ≤ 104)]
    norm_num [show (104 : Int).toNat = 104 from rfl]
  have h128 : pow2z 128 = (2 : ℚ) ^ (128 : Nat) := by
    rw [pow2z, if_pos (by norm_num : (0 : Int) ≤ 128)]
    norm_num [show (128 : Int).toNat = 128 from rfl]
  have hrhe : rhe ((2 : ℚ) ^ 300 / 2 ^ 104) = 2 ^ 196 := by
    rw [show ((2 : ℚ) ^ 300 / 2 ^ 104) = 2 ^ 196 by norm_num, rhe]
    norm_num
  simp only [cast32]
  rw [habs, he, h104, hrhe, h128]
  norm_num

/-- C4 as stated is false: `_apply_mode` casts the input to `float32`
(`np.asarray(y, dtype=np.float32)`) before returning it, so on an input
holding the value `2^300` (well-formed as a float64) the Reflectance output
is `inf`, not the input value: the map is not the exact identity for
arbitrary numeric input. -/
theorem C4_counterexample :
    apply_mode "Reflectance" (fun _ => 0) [NF.fin ((2 : ℚ) ^ 300)]
      ≠ [NF.fin ((2 : ℚ) ^ 300)] := by
  have hmode : apply_mode "Reflectance" (fun _ => 0) [NF.fin ((2 : ℚ) ^ 300)]
      = [NF.inf] := by
    simp [apply_mode, cast32nf, cast32_pow300]
  rw [hmode]
  intro hcon
  simp at hcon

/-- C4 amended: in Reflectance mode `_apply_mode` returns the `float32`
cast of the input elementwise, and it is the exact identity on every input
whose values are exactly representable in `float32` (in particular on any
`float32` input); it is not the identity on arbitrary numeric values, which
are rounded to `float32`. -/
theorem C4_apply_mode_reflectance (neglog : ℚ → ℚ) (y : List NF) :
    apply_mode "Reflectance" neglog y = y.map cast32nf ∧
    ((∀ v ∈ y, cast32nf v = v) → apply_mode "Reflectance" neglog y = y) := by
  have h1 : apply_mode "Reflectance" neglog y = y.map cast32nf := by
    simp [apply_mode]
  refine ⟨h1, fun h => ?_⟩
  rw [h1, List.map_congr_left h]
  simp

/-- Witness for C4 at `y = [0.0]`: zero is exactly representable in
`float32`, and Reflectance mode returns it unchanged. -/
theorem C4_witness :
    apply_mode "Reflectance" (fun _ => 0) [NF.fin 0] = [NF.fin 0] :=
  (C4_apply_mode_reflectance (fun _ => 0) [NF.fin 0]).2 (by
    intro v hv
    rw [List.mem_singleton] at hv
    subst hv
    simp [cast32nf, cast32_zero])

/-! ### SNV facts -/

theorem foldl_add_fin (c : ℚ) : ∀ (n : Nat) (acc : ℚ),
    (List.replicate n (NF.fin c)).foldl NF.add (NF.fin acc)
      = NF.fin (acc + n * c)
  | 0, acc => by simp
  | Nat.succ n, acc => by
    rw [List.replicate_succ, List.foldl_cons,
      show NF.add (NF.fin acc) (NF.fin c) = NF.fin (acc + c) from rfl,
      foldl_add_fin c n (acc + c)]
    push_cast
    ring_nf

theorem nanmeanL_replicate (c : ℚ) {n : Nat} (hn : 1 ≤ n) :
    nanmeanL (List.replicate n (NF.fin c)) = NF.fin c := by
  have hfilt : (List.replicate n (NF.fin c)).filter (fun v => !v.isNan)
      = List.replicate n (NF.fin c) := by
    apply List.filter_eq_self.mpr
    intro a ha
    rw [List.eq_of_mem_replicate ha]
    rfl
  have hne : ((List.replicate n (NF.fin c)).length : ℚ) ≠ 0 := by
    simp
    omega
  simp only [nanmeanL, hfilt, List.length_replicate]
  rw [if_neg (by omega), foldl_add_fin c n 0]
  show NF.div (NF.fin (0 + n * c)) (NF.fin n) = NF.fin c
  rw [NF.div]
  simp only [List.length_replicate] at hne
  rw [if_neg (by exact_mod_cast fun h => hne (by exact_mod_cast h))]
  congr 1
  field_simp

theorem sub_fin_self (c : ℚ) : NF.sub (NF.fin c) (NF.fin c) = NF.fin 0 := by
  show NF.fin (c + -c) = NF.fin 0
  rw [add_neg_cancel]

theorem rnd_id (v : NF) : NF.rnd (fun q => q) v = v := by
  cases v <;> rfl

theorem addR_id : addR (fun q => q) = NF.add := by
  funext a b
  exact rnd_id _

theorem subR_id : subR (fun q => q) = NF.sub := by
  funext a b
  exact rnd_id _

theorem mulR_id : mulR (fun q => q) = NF.mul := by
  funext a b
  exact rnd_id _

theorem divR_id : divR (fun q => q) = NF.div := by
  funext a b
  exact rnd_id _

theorem nanmeanR_id (y : List NF) : nanmeanR (fun q => q) y = nanmeanL y := by
  simp only [nanmeanR, nanmeanL, addR_id, divR_id]

theorem nanstdR_id (sqrtf : ℚ → ℚ) (y : List NF) :
    nanstdR (fun q => q) sqrtf y = nanstdNF sqrtf y := by
  simp only [nanstdR, nanstdNF, nanmeanR_id, subR_id, mulR_id]

/-- With the identity rounding, the rounded SNV model is the exact one. -/
theorem apply_snv_r_id (sqrtf : ℚ → ℚ) (y : List NF) :
    apply_snv_r (fun q => q) sqrtf y = apply_snv sqrtf y := by
  simp only [apply_snv_r, apply_snv, nanmeanR_id, nanstdR_id, subR_id, divR_id]

/-- In exact arithmetic, SNV of a finite constant vector is the zero
vector (the spec's intended reasoning `y - mean = 0`). -/
theorem apply_snv_const_exact (sqrtf : ℚ → ℚ) (hs : sqrtf 0 = 0) (c : ℚ)
    {n : Nat} (hn : 1 ≤ n) :
    apply_snv sqrtf (List.replicate n (NF.fin c))
      = List.replicate n (NF.fin 0) := by
  have hmean := nanmeanL_replicate c hn
  have hstd : nanstdNF sqrtf (List.replicate n (NF.fin c)) = NF.fin 0 := by
    simp only [nanstdNF, hmean, List.map_replicate, sub_fin_self,
      show NF.mul (NF.fin 0) (NF.fin 0) = NF.fin 0 by
        show NF.fin (0 * 0) = NF.fin 0; norm_num,
      nanmeanL_replicate 0 hn]
    show NF.fin (sqrtf 0) = NF.fin 0
    rw [hs]
  simp only [apply_snv, hmean, hstd]
  rw [if_pos (by rfl)]
  rw [List.map_replicate, sub_fin_self]

theorem foldl_addR_zero (rnd : ℚ → ℚ) (h0 : rnd 0 = 0) : ∀ n : Nat,
    (List.replicate n (NF.fin 0)).foldl (addR rnd) (NF.fin 0) = NF.fin 0
  | 0 => rfl
  | Nat.succ n => by
    rw [List.replicate_succ, List.foldl_cons,
      show addR rnd (NF.fin 0) (NF.fin 0) = NF.fin 0 by
        show NF.fin (rnd (0 + 0)) = NF.fin 0
        rw [add_zero, h0],
      foldl_addR_zero rnd h0 n]

theorem nanmeanR_zero (rnd : ℚ → ℚ) (h0 : rnd 0 = 0) {n : Nat} (hn : 1 ≤ n) :
    nanmeanR rnd (List.replicate n (NF.fin 0)) = NF.fin 0 := by
  have hfilt : (List.replicate n (NF.fin 0)).filter (fun v => !v.isNan)
      = List.replicate n (NF.fin 0) := by
    apply List.filter_eq_self.mpr
    intro a ha
    rw [List.eq_of_mem_replicate ha]
    rfl
  simp only [nanmeanR, hfilt, List.length_replicate]
  rw [if_neg (by omega), foldl_addR_zero rnd h0 n]
  show (NF.div (NF.fin 0) (NF.fin n)).rnd rnd = NF.fin 0
  have hne : ((n : ℚ)) ≠ 0 := Nat.cast_ne_zero.mpr (by omega)
  show (if (n : ℚ) = 0 then (if (0 : ℚ) = 0 then NF.nan
          else if (0 : ℚ) < 0 then NF.ninf else NF.inf)
        else NF.fin (0 / (n : ℚ))).rnd rnd = NF.fin 0
  rw [if_neg hne]
  show NF.fin (rnd (0 / (n : ℚ))) = NF.fin 0
  rw [zero_div, h0]

/-- Under any floating-point rounding that fixes zero, SNV of the
constant-zero vector is exactly the zero vector. -/
theorem apply_snv_r_zero (rnd sqrtf : ℚ → ℚ) (h0 : rnd 0 = 0)
    (hs : sqrtf 0 = 0) {n : Nat} (hn : 1 ≤ n) :
    apply_snv_r rnd sqrtf (List.replicate n (NF.fin 0))
      = List.replicate n (NF.fin 0) := by
  have hmean := nanmeanR_zero rnd h0 hn
  have hsub : subR rnd (NF.fin 0) (NF.fin 0) = NF.fin 0 := by
    show NF.fin (rnd (0 + -0)) = NF.fin 0
    rw [neg_zero, add_zero, h0]
  have hmul : mulR rnd (NF.fin 0) (NF.fin 0) = NF.fin 0 := by
    show NF.fin (rnd (0 * 0)) = NF.fin 0
    rw [mul_zero, h0]
  have hstd : nanstdR rnd sqrtf (List.replicate n (NF.fin 0)) = NF.fin 0 := by
    simp only [nanstdR, hmean, List.map_replicate, hsub, hmul,
      nanmeanR_zero rnd h0 hn]
    show NF.fin (sqrtf 0) = NF.fin 0
    rw [hs]
  simp only [apply_snv_r, hmean, hstd]
  rw [if_pos (by rfl), List.map_replicate, hsub]

/-- C5 as stated is false, in two ways.  (i) A constant input may be the
constant NaN, and then `_apply_snv` returns NaN (NaN-aware mean and std of
an all-NaN vector are NaN, the guard takes the `y - mean` branch, and
`nan - nan = nan`), not zero.  (ii) Under real float64 rounding the mean of
the constant vector `[0.1, 0.1, 0.1]` (where `0.1` is the float64 value
`7205759403792794 / 2^56`) is `0.10000000000000002 ≠ 0.1` and the std is
`2^-56 ≠ 0`, so `_apply_snv` takes the divide branch and returns
`[-1.0, -1.0, -1.0]`, not zeros.  The rounding function below agrees with
IEEE-754 float64 round-to-nearest-even at the only two operations whose
exact result is not representable (the sum `0.2 + 0.1`, a tie rounded to
even, and the division of the rounded sum by 3) and is the identity
elsewhere (all other intermediate results are exactly representable); the
square-root function agrees with the exact square root at the one point
where it is taken. -/
theorem C5_counterexample :
    (apply_snv_r (fun q => q) (fun x => x) [NF.nan] = [NF.nan] ∧
      NF.nan ≠ NF.fin 0) ∧
    apply_snv_r
      (fun q =>
        if q = 21617278211378382 / 2 ^ 56 then 21617278211378384 / 2 ^ 56
        else if q = 21617278211378384 / (3 * 2 ^ 56) then
          7205759403792795 / 2 ^ 56
        else q)
      (fun q => if q = 1 / 2 ^ 112 then 1 / 2 ^ 56 else 0)
      [NF.fin (7205759403792794 / 2 ^ 56), NF.fin (7205759403792794 / 2 ^ 56),
        NF.fin (7205759403792794 / 2 ^ 56)]
      = [NF.fin (-1), NF.fin (-1), NF.fin (-1)] := by
  refine ⟨⟨rfl, fun h => by cases h⟩, ?_⟩
  norm_num [apply_snv_r, nanmeanR, nanstdR, addR, subR, mulR, divR, NF.rnd,
    NF.add, NF.neg, NF.sub, NF.mul, NF.div, sqrtNF, NF.isNan, NF.isFinite,
    List.filter_cons, List.filter_nil, List.foldl_cons, List.foldl_nil,
    List.map_cons, List.map_nil, beq_iff_eq]

/-- C5 amended: whenever the NaN-aware standard deviation computed by
`_apply_snv` is zero or non-finite, it returns `y - mean(y)` unscaled
instead of dividing; consequently the constant-zero vector maps to exactly
`[0, ..., 0]` under any floating-point rounding (fixing zero), and every
finite constant vector maps to exactly `[0, ..., 0]` in exact arithmetic.
The exact-zeros guarantee does not extend to every finite constant under
float rounding (float64 `[0.1]*3` divides and yields `[-1, -1, -1]`), nor
to a constant NaN input (which yields NaN). -/
theorem C5_apply_snv_guard (rnd sqrtf : ℚ → ℚ) (h0 : rnd 0 = 0)
    (hs : sqrtf 0 = 0) (c : ℚ) (n : Nat) (hn : 1 ≤ n) (y : List NF) :
    ((nanstdR rnd sqrtf y).isFinite = false ∨ nanstdR rnd sqrtf y = NF.fin 0 →
      apply_snv_r rnd sqrtf y = y.map (fun v => subR rnd v (nanmeanR rnd y))) ∧
    apply_snv_r rnd sqrtf (List.replicate n (NF.fin 0))
      = List.replicate n (NF.fin 0) ∧
    apply_snv_r (fun q => q) sqrtf (List.replicate n (NF.fin c))
      = List.replicate n (NF.fin 0) := by
  refine ⟨?_, apply_snv_r_zero rnd sqrtf h0 hs hn, ?_⟩
  · intro h
    have hcond : (!(nanstdR rnd sqrtf y).isFinite
        || (nanstdR rnd sqrtf y == NF.fin 0)) = true := by
      rcases h with h | h
      · simp [h]
      · simp [h]
    simp only [apply_snv_r]
    rw [if_pos hcond]
  · rw [apply_snv_r_id]
    exact apply_snv_const_exact sqrtf hs c hn

/-- Witness for C5 at `n = 2` with identity rounding: the constant-zero
vector `[0, 0]` maps to `[0, 0]`. -/
theorem C5_witness :
    apply_snv_r (fun q => q) (fun x => x) (List.replicate 2 (NF.fin 0))
      = List.replicate 2 (NF.fin 0) :=
  (C5_apply_snv_guard (fun q => q) (fun x => x) rfl rfl 0 2
    (by norm_num) []).2.1

/-! ### Absorbance pipeline facts -/

theorem mul_scale_isNan {v : NF} (h : v.isNan = false) :
    (NF.mul v (NF.fin (1 / 65535))).isNan = false := by
  cases v with
  | nan => exact absurd h (by simp [NF.isNan])
  | inf =>
    show (if (0 : ℚ) < 1 / 65535 then NF.inf
          else if (1 : ℚ) / 65535 < 0 then NF.ninf else NF.nan).isNan = false
    rw [if_pos (by norm_num)]
    rfl
  | ninf =>
    show (if (0 : ℚ) < 1 / 65535 then NF.ninf
          else if (1 : ℚ) / 65535 < 0 then NF.inf else NF.nan).isNan = false
    rw [if_pos (by norm_num)]
    rfl
  | fin x => rfl

theorem clip_bounds {lo hi : ℚ} (hlh : lo ≤ hi) {v : NF} (h : v.isNan = false) :
    ∃ r, NF.clip lo hi v = NF.fin r ∧ lo ≤ r ∧ r ≤ hi := by
  cases v with
  | nan => exact absurd h (by simp [NF.isNan])
  | inf => exact ⟨hi, rfl, hlh, le_refl hi⟩
  | ninf => exact ⟨lo, rfl, le_refl lo, hlh⟩
  | fin x =>
    exact ⟨max lo (min x hi), rfl, le_max_left _ _,
      max_le hlh (min_le_right _ _)⟩

theorem neglog10NF_fin (f : ℚ → ℚ) {r : ℚ} (h : (0 : ℚ) < r) :
    neglog10NF f (NF.fin r) = NF.fin (f r) := by
  simp [neglog10NF, not_lt.mpr h.le, h.ne']

/-- One element of the Absorbance pipeline (after the shared scale
decision): NaN propagates to NaN, anything else lands on a finite value. -/
theorem absorb_elem (f : ℚ → ℚ)
    (hf : ∀ x : ℚ, 1 / 100000000 ≤ x → x ≤ 1 → 0 ≤ f x ∧ f x ≤ 8)
    (scale : Bool) (v : NF) :
    (v.isNan = true →
      cast32nf (neglog10NF f (NF.clip (1 / 100000000) 1
        (if scale then NF.mul (cast32nf v) (NF.fin (1 / 65535)) else cast32nf v)))
        = NF.nan) ∧
    (v.isNan = false →
      (cast32nf (neglog10NF f (NF.clip (1 / 100000000) 1
        (if scale then NF.mul (cast32nf v) (NF.fin (1 / 65535)) else cast32nf v)))).isFinite
        = true) := by
  constructor
  · intro h
    have hv : v = NF.nan := by cases v <;> simp_all [NF.isNan]
    subst hv
    cases scale <;> rfl
  · intro h
    have h1 : (cast32nf v).isNan = false := by rw [cast32nf_isNan]; exact h
    have h2 : (if scale then NF.mul (cast32nf v) (NF.fin (1 / 65535))
        else cast32nf v).isNan = false := by
      cases scale
      · simpa using h1
      · simpa using mul_scale_isNan h1
    obtain ⟨r, hclip, hlo, hhi⟩ :=
      clip_bounds (by norm_num : (1 : ℚ) / 100000000 ≤ 1) h2
    rw [hclip, neglog10NF_fin f (lt_of_lt_of_le (by norm_num) hlo)]
    obtain ⟨hf0, hf8⟩ := hf r hlo hhi
    obtain ⟨s, hs⟩ := cast32_fin_of_bounds hf0 hf8
    show (cast32 (f r)).isFinite = true
    rw [hs]
    rfl

theorem mem_zip_map {α β : Type} (g : α → β) :
    ∀ (l : List α), ∀ p ∈ l.zip (l.map g), p.2 = g p.1 := by
  intro l
  induction l with
  | nil => simp
  | cons a t ih =>
    intro p hp
    rw [List.map_cons, List.zip_cons_cons, List.mem_cons] at hp
    rcases hp with rfl | hp
    · rfl
    · exact ih p hp

/-- C3 as stated is false: `np.clip` propagates NaN and `-log10(nan)` is
NaN, so an input containing a NaN entry produces a NaN (non-finite) output
entry in Absorbance mode. -/
theorem C3_counterexample :
    apply_mode "Absorbance" (fun _ => 0) [NF.nan] = [NF.nan] ∧
    NF.isFinite NF.nan = false := by
  constructor
  · rfl
  · rfl

/-- C3 amended: in Absorbance mode `_apply_mode` uses `y` directly when the
NaN-aware maximum is not a finite value above 1.5 and pre-divides by 65535
when it is, then clips to `[1e-8, 1.0]` and returns `-log10` of the clipped
value; the output entry is finite at every position whose input entry is
not NaN, and is NaN exactly where the input is NaN (so the output is always
finite for NaN-free inputs, but not for inputs containing NaN).
`f` stands for the exact real `x ↦ -log10 x`, whose values on `[1e-8, 1]`
lie in `[0, 8]`. -/
theorem C3_apply_mode_absorbance (f : ℚ → ℚ)
    (hf : ∀ x : ℚ, 1 / 100000000 ≤ x → x ≤ 1 → 0 ≤ f x ∧ f x ≤ 8)
    (y : List NF) :
    (apply_mode "Absorbance" f y).length = y.length ∧
    (y ≠ [] → apply_mode "Absorbance" f y =
      (if (nanmax (y.map cast32nf)).isFinite
            && NF.lt (NF.fin (3 / 2)) (nanmax (y.map cast32nf))
       then (y.map cast32nf).map (fun v => NF.mul v (NF.fin (1 / 65535)))
       else y.map cast32nf).map
        (fun v => cast32nf (neglog10NF f (NF.clip (1 / 100000000) 1 v)))) ∧
    (∀ p ∈ y.zip (apply_mode "Absorbance" f y),
      (p.1.isNan = true → p.2 = NF.nan) ∧
      (p.1.isNan = false → p.2.isFinite = true)) := by
  have hsr : ¬ ("Absorbance" : String) = "Reflectance" := by decide
  have hmode : apply_mode "Absorbance" f y =
      (if (if (y.map cast32nf).length ≠ 0 then nanmax (y.map cast32nf)
             else NF.fin 0).isFinite
          && NF.lt (NF.fin (3 / 2))
              (if (y.map cast32nf).length ≠ 0 then nanmax (y.map cast32nf)
               else NF.fin 0)
       then (y.map cast32nf).map (fun v => NF.mul v (NF.fin (1 / 65535)))
       else y.map cast32nf).map
        (fun v => cast32nf (neglog10NF f (NF.clip (1 / 100000000) 1 v))) := by
    rw [apply_mode, if_neg hsr, if_pos rfl]
    simp only [List.map_map]
    rfl
  cases hc : ((if (y.map cast32nf).length ≠ 0 then nanmax (y.map cast32nf)
        else NF.fin 0).isFinite
      && NF.lt (NF.fin (3 / 2))
        (if (y.map cast32nf).length ≠ 0 then nanmax (y.map cast32nf)
         else NF.fin 0)) with
  | false =>
    rw [if_neg (by rw [hc]; simp), List.map_map] at hmode
    refine ⟨?_, ?_, ?_⟩
    · rw [hmode]; simp
    · intro hy
      have hlen : (y.map cast32nf).length ≠ 0 := by
        simpa using fun h => hy (List.eq_nil_of_length_eq_zero h)
      rw [if_pos hlen] at hc
      rw [hmode, if_neg (by rw [hc]; simp), List.map_map]
    · intro p hp
      rw [hmode] at hp
      have h2 := mem_zip_map _ y p hp
      rw [h2]
      have h := absorb_elem f hf false p.1
      simpa [Function.comp] using h
  | true =>
    rw [if_pos hc, List.map_map, List.map_map] at hmode
    refine ⟨?_, ?_, ?_⟩
    · rw [hmode]; simp
    · intro hy
      have hlen : (y.map cast32nf).length ≠ 0 := by
        simpa using fun h => hy (List.eq_nil_of_length_eq_zero h)
      rw [if_pos hlen] at hc
      rw [hmode, if_pos hc, List.map_map, List.map_map]
    · intro p hp
      rw [hmode] at hp
      have h2 := mem_zip_map _ y p hp
      rw [h2]
      have h := absorb_elem f hf true p.1
      simpa [Function.comp] using h

/-- Witness for C3 at `f = const 0`, `y = [0.0]`: the output has the input's
length. -/
theorem C3_witness :
    (apply_mode "Absorbance" (fun _ => 0) [NF.fin 0]).length
      = [NF.fin 0].length :=
  (C3_apply_mode_absorbance (fun _ => 0)
    (fun x _ _ => ⟨le_refl 0, by norm_num⟩) [NF.fin 0]).1

/-- C10: at zeroth derivative order, `_apply_smoothing` in v1.6.7 computes
exactly what `_apply_smoothing` in v1.6.2 computes, for every input vector,
every common base/minimum window, and every behaviour of the underlying
`savgol_filter` and moving-average-fallback routines (including taking the
same fallback on filter failure): the derivative feature added in v1.6.7
does not change zeroth-order smoothing. -/
theorem C10_smoothing_v167_eq_v162
    (savgol : List NF → Nat → Nat → Nat → Option (List NF))
    (convolve_ma : List NF → Nat → List NF) (w : Nat) (y : List NF) :
    apply_smoothing_v167 savgol convolve_ma w "0th" y
      = apply_smoothing_v162 savgol convolve_ma w y := by
  have hd : deriv_map_get "0th" = 0 := by simp [deriv_map_get]
  unfold apply_smoothing_v167 apply_smoothing_v162
  rw [hd]
  cases safe_window_length y.length w 3 with
  | none => rfl
  | some win =>
    simp only
    cases savgol y (if win ≤ 2 then (if (2 + 3) % 2 = 0 then 2 + 3 + 1 else 2 + 3) else win) 2 0 with
    | none => rfl
    | some res => simp

/-- C7: point-cache invalidation is exact and framed: after
`_invalidate_point_cache(source, x, y)` the raw entry and every processed
entry whose key begins with `(source, x, y)` are gone, every other point's
raw and processed entries are untouched, and a subsequent
`_get_point_proc_slice` for that point recomputes from the cube data (a
cache miss on both the raw and the processed cache). -/
theorem C7_invalidate_point_cache (env : Env) (st : Caches) (src : String)
    (x y : Int) :
    (invalidate_point_cache st src x y).pt_raw (src, x, y) = none ∧
    (∀ k : ProcKey, k.1 = (src, x, y) →
      (invalidate_point_cache st src x y).pt_proc k = none) ∧
    (∀ k : RawKey, k ≠ (src, x, y) →
      (invalidate_point_cache st src x y).pt_raw k = st.pt_raw k) ∧
    (∀ k : ProcKey, k.1 ≠ (src, x, y) →
      (invalidate_point_cache st src x y).pt_proc k = st.pt_proc k) ∧
    (∀ i_lo i_hi : Nat, src = env.cur_src →
      (get_point_proc_slice env (invalidate_point_cache st src x y)
          src x y i_lo i_hi).1
        = some (env.pipeline
            (((env.cur_data x y).drop i_lo).take (i_hi + 1 - i_lo)))) := by
  refine ⟨?_, ?_, ?_, ?_, ?_⟩
  · simp [invalidate_point_cache]
  · intro k hk
    simp [invalidate_point_cache, hk]
  · intro k hk
    simp [invalidate_point_cache, hk]
  · intro k hk
    simp [invalidate_point_cache, hk]
  · intro i_lo i_hi hsrc
    have hraw : (invalidate_point_cache st src x y).pt_raw (src, x, y)
        = none := by simp [invalidate_point_cache]
    simp only [get_point_proc_slice, hraw, if_pos hsrc]
    simp [invalidate_point_cache]

/-- Witness for C7 at an empty cache and a one-point cube: after
invalidation the raw entry for the point is absent. -/
theorem C7_witness :
    (invalidate_point_cache
        ⟨fun _ => none, fun _ => none⟩ "a" 1 2).pt_raw ("a", 1, 2) = none :=
  (C7_invalidate_point_cache
    ⟨"a", fun _ _ => [], fun _ => none, ("Reflectance", false, false, false),
      fun l => l⟩
    ⟨fun _ => none, fun _ => none⟩ "a" 1 2).1

/-! ### Hit-test facts for C6 -/

theorem find_first_none {p : Poly → Bool} : ∀ {l : List Poly},
    find_first p l = none → ∀ vs ∈ l, p vs = false
  | [], _, vs, hm => absurd hm (List.not_mem_nil vs)
  | u :: rest, h, vs, hm => by
    rw [find_first] at h
    split at h
    · exact absurd h (by simp)
    · have h' : find_first p rest = none := by
        cases hf : find_first p rest with
        | none => rfl
        | some j => rw [hf] at h; simp at h
      rcases List.mem_cons.mp hm with rfl | hm2
      · exact Bool.not_eq_true _ |>.mp ‹¬ p vs = true›
      · exact find_first_none h' vs hm2

theorem find_first_some {p : Poly → Bool} : ∀ {l : List Poly} {i : Nat},
    find_first p l = some i →
    ∃ pre vs post, l = pre ++ vs :: post ∧ pre.length = i ∧ p vs = true ∧
      ∀ u ∈ pre, p u = false
  | [], i, h => by simp [find_first] at h
  | u :: rest, i, h => by
    rw [find_first] at h
    split at h
    · exact ⟨[], u, rest, rfl, Option.some.inj h, ‹p u = true›, by simp⟩
    · obtain ⟨j, hj, rfl⟩ : ∃ j, find_first p rest = some j ∧ i = j + 1 := by
        cases hf : find_first p rest with
        | none => rw [hf] at h; simp at h
        | some j =>
          rw [hf] at h
          exact ⟨j, rfl, (Option.some.inj h).symm⟩
      obtain ⟨pre, vs, post, rfl, hlen, hvs, hpre⟩ := find_first_some hj
      refine ⟨u :: pre, vs, post, rfl, by simp [hlen], hvs, ?_⟩
      intro w hw
      rcases List.mem_cons.mp hw with rfl | hw2
      · exact Bool.not_eq_true _ |>.mp ‹¬ p w = true›
      · exact hpre w hw2

theorem eraseIdx_append_cons : ∀ (pre : List Poly) (vs : Poly) (post : List Poly),
    (pre ++ vs :: post).eraseIdx pre.length = pre ++ post
  | [], _, _ => rfl
  | u :: pre, vs, post => by
    show ((u :: pre) ++ vs :: post).eraseIdx (pre.length + 1) = (u :: pre) ++ post
    rw [List.cons_append, List.eraseIdx_cons_succ,
      eraseIdx_append_cons pre vs post, List.cons_append]

/-- C6 amended: `_delete_polygon_near` checks containment (tier 1) for all
polygons first; if none contains the click, it makes a single pass in list
order in which each polygon is tested against its vertices (tier 2, radius)
and then its own edges (tier 3, radius*1.5) before the next polygon is
considered — tiers 2 and 3 are interleaved per polygon, not checked
tier-major across the whole list.  The first polygon matching is removed
and at most one polygon is removed per call. -/
theorem C6_delete_polygon_near (polys : List Poly) (x y : Int) (rad : ℚ) :
    ((∀ vs ∈ polys, cont_hit x y vs = false ∧ near_hit rad x y vs = false) ∧
      delete_polygon_near polys x y rad = (false, polys)) ∨
    (∃ pre vs post, polys = pre ++ vs :: post ∧
      delete_polygon_near polys x y rad = (true, pre ++ post) ∧
      ((cont_hit x y vs = true ∧ ∀ u ∈ pre, cont_hit x y u = false) ∨
       ((∀ u ∈ polys, cont_hit x y u = false) ∧ near_hit rad x y vs = true ∧
         ∀ u ∈ pre, near_hit rad x y u = false))) := by
  by_cases hnil : polys = []
  · subst hnil
    exact Or.inl ⟨by simp, by rw [delete_polygon_near, if_pos rfl]⟩
  · cases h1 : find_first (cont_hit x y) polys with
    | some i =>
      obtain ⟨pre, vs, post, rfl, hlen, hvs, hpre⟩ := find_first_some h1
      refine Or.inr ⟨pre, vs, post, rfl, ?_, Or.inl ⟨hvs, hpre⟩⟩
      rw [delete_polygon_near, if_neg hnil, h1, ← hlen]
      show (true, (pre ++ vs :: post).eraseIdx pre.length) = (true, pre ++ post)
      rw [eraseIdx_append_cons]
    | none =>
      have hcont := find_first_none h1
      cases h2 : find_first (near_hit rad x y) polys with
      | some i =>
        obtain ⟨pre, vs, post, rfl, hlen, hvs, hpre⟩ := find_first_some h2
        refine Or.inr ⟨pre, vs, post, rfl, ?_, Or.inr ⟨hcont, hvs, hpre⟩⟩
        rw [delete_polygon_near, if_neg hnil, h1, h2, ← hlen]
        show (true, (pre ++ vs :: post).eraseIdx pre.length) = (true, pre ++ post)
        rw [eraseIdx_append_cons]
      | none =>
        have hnear := find_first_none h2
        refine Or.inl ⟨fun vs hv => ⟨hcont vs hv, hnear vs hv⟩, ?_⟩
        rw [delete_polygon_near, if_neg hnil, h1, h2]

/-- C6 as stated is false: the code checks a polygon's vertices *and* its
edges before moving to the next polygon, instead of checking tier 2 across
all polygons before tier 3.  At click `(0,0)` with radius 8: no polygon
contains the click, the first polygon has an edge within `radius*1.5` (its
edge from `(-100,10)` to `(100,10)` passes at distance 10 ≤ 12) but no
vertex within radius, and the second polygon has a vertex within radius
(`(0,5)` at distance 5 ≤ 8).  Under the claimed tier-major order the second
polygon would be removed; the code removes the first one, leaving exactly
the second. -/
theorem C6_counterexample :
    delete_polygon_near
        [[(-100, 10), (100, 10), (0, 200)], [(0, 5), (50, 300), (-50, 300)]]
        0 0 8
      = (true, [[(0, 5), (50, 300), (-50, 300)]]) ∧
    cont_hit 0 0 [(-100, 10), (100, 10), (0, 200)] = false ∧
    cont_hit 0 0 [(0, 5), (50, 300), (-50, 300)] = false ∧
    vert_hit 8 0 0 [(-100, 10), (100, 10), (0, 200)] = false ∧
    vert_hit 8 0 0 [(0, 5), (50, 300), (-50, 300)] = true ∧
    edge_hit (8 * (3 / 2)) 0 0 [(-100, 10), (100, 10), (0, 200)] = true := by
  have hc1 : cont_hit 0 0 [(-100, 10), (100, 10), (0, 200)] = false := by
    norm_num [cont_hit, contains_point, edgesOf, List.zip, List.zipWith,
      List.countP_cons, List.countP_nil, Bool.and_eq_true, bne_iff_ne, ne_eq,
      decide_eq_true_eq, decide_eq_decide]
  have hc2 : cont_hit 0 0 [(0, 5), (50, 300), (-50, 300)] = false := by
    norm_num [cont_hit, contains_point, edgesOf, List.zip, List.zipWith,
      List.countP_cons, List.countP_nil, Bool.and_eq_true, bne_iff_ne, ne_eq,
      decide_eq_true_eq, decide_eq_decide]
  have hv1 : vert_hit 8 0 0 [(-100, 10), (100, 10), (0, 200)] = false := by
    norm_num [vert_hit, List.any_cons, List.any_nil, decide_eq_true_eq]
  have hv2 : vert_hit 8 0 0 [(0, 5), (50, 300), (-50, 300)] = true := by
    norm_num [vert_hit, List.any_cons, List.any_nil, decide_eq_true_eq]
  have he1 : edge_hit (8 * (3 / 2)) 0 0 [(-100, 10), (100, 10), (0, 200)]
      = true := by
    norm_num [edge_hit, edgesOf, List.zip, List.zipWith, List.any_cons,
      List.any_nil, pt_seg_dist_sq, decide_eq_true_eq, max_def, min_def]
  have hn1 : near_hit 8 0 0 [(-100, 10), (100, 10), (0, 200)] = true := by
    rw [near_hit, hv1, he1]
    rfl
  have hff1 : find_first (cont_hit 0 0)
      [[(-100, 10), (100, 10), (0, 200)], [(0, 5), (50, 300), (-50, 300)]]
      = none := by
    simp [find_first, hc1, hc2]
  have hff2 : find_first (near_hit 8 0 0)
      [[(-100, 10), (100, 10), (0, 200)], [(0, 5), (50, 300), (-50, 300)]]
      = some 0 := by
    simp [find_first, hn1]
  refine ⟨?_, hc1, hc2, hv1, hv2, he1⟩
  rw [delete_polygon_near, if_neg (by simp), hff1, hff2]
  rfl

/-! ### Interpolation facts for C8 -/

theorem mem_insertPair {p q : ℚ × NF} : ∀ {l : List (ℚ × NF)},
    q ∈ insertPair p l → q = p ∨ q ∈ l
  | [], h => by simpa [insertPair] using h
  | u :: rest, h => by
    rw [insertPair] at h
    split at h
    · rcases List.mem_cons.mp h with rfl | h2
      · exact Or.inr (List.mem_cons_self _ _)
      · rcases mem_insertPair h2 with h3 | h3
        · exact Or.inl h3
        · exact Or.inr (List.mem_cons_of_mem _ h3)
    · rcases List.mem_cons.mp h with rfl | h2
      · exact Or.inl rfl
      · exact Or.inr h2

theorem mem_sortPairs {q : ℚ × NF} : ∀ {l : List (ℚ × NF)},
    q ∈ sortPairs l → q ∈ l
  | [], h => by simpa [sortPairs] using h
  | p :: rest, h => by
    rw [sortPairs] at h
    rcases mem_insertPair h with rfl | h2
    · exact List.mem_cons_self _ _
    · exact List.mem_cons_of_mem _ (mem_sortPairs h2)

theorem mem_dedupSorted {q : ℚ × NF} : ∀ l : List (ℚ × NF),
    q ∈ dedupSorted l → q ∈ l
  | [], h => by simpa [dedupSorted] using h
  | [p], h => by simpa [dedupSorted] using h
  | p :: u :: rest, h => by
    rw [dedupSorted] at h
    split at h
    · rcases List.mem_cons.mp (mem_dedupSorted (p :: rest) h) with rfl | h2
      · exact List.mem_cons_self _ _
      · exact List.mem_cons_of_mem _ (List.mem_cons_of_mem _ h2)
    · rcases List.mem_cons.mp h with rfl | h2
      · exact List.mem_cons_self _ _
      · exact List.mem_cons_of_mem _ (mem_dedupSorted (u :: rest) h2)
termination_by l => l.length

/-- `np.interp` with NaN fill values yields NaN above all sample points. -/
theorem np_interp_nan_above {t : ℚ} : ∀ ps : List (ℚ × NF),
    (∀ p ∈ ps, p.1 < t) → np_interp t ps NF.nan NF.nan = NF.nan
  | [], _ => rfl
  | [p], hall => by
    have hp := hall p (List.mem_singleton_self p)
    rw [np_interp, if_neg (by linarith), if_pos hp]
  | p :: u :: rest, hall => by
    have hp := hall p (by simp)
    have hu := hall u (by simp)
    rw [np_interp, if_neg (by linarith), if_neg (by linarith)]
    exact np_interp_nan_above (u :: rest) (fun v hv => hall v (by
      rcases List.mem_cons.mp hv with rfl | hv2
      · simp
      · simp [hv2]))

/-- `np.interp` with NaN fill values yields NaN below all sample points. -/
theorem np_interp_nan_below {t : ℚ} : ∀ ps : List (ℚ × NF),
    (∀ p ∈ ps, t < p.1) → np_interp t ps NF.nan NF.nan = NF.nan
  | [], _ => rfl
  | [p], hall => by
    have hp := hall p (List.mem_singleton_self p)
    rw [np_interp, if_pos hp]
  | p :: u :: rest, hall => by
    have hp := hall p (by simp)
    rw [np_interp, if_pos hp]

/-- C8: cross-source master-grid export never extrapolates: for a point
whose source differs from the current cube, `_get_raw_spectrum_on_master`
sorts the source spectrum by the source's own wavelengths, deduplicates
exactly-equal wavelengths, linearly interpolates onto the master axis with
NaN fill on both sides, so every master position strictly outside the
source's wavelength range gets NaN; in particular, if the source
wavelengths lie entirely below the master grid's minimum, the exported row
is all NaN. -/
theorem C8_raw_spectrum_on_master (env : MEnv) (p_src : String) (px py : Int)
    (wl_master : List ℚ) (H W : Nat) (dat : Int → Int → List NF)
    (wl0 : List ℚ) (Hs Ws : Nat) (d : Int → Int → List NF) (wl_src : List ℚ)
    (hdata : env.data = some ((H, W), dat))
    (hwl : env.wavelengths = some wl0)
    (hsrc : p_src ≠ env.cur_src)
    (hs : env.sources p_src = some (((Hs, Ws), d), wl_src))
    (hwl_src : wl_src ≠ []) :
    get_raw_spectrum_on_master env p_src px py wl_master
      = wl_master.map (fun t =>
          np_interp t
            (dedupSorted (sortPairs (wl_src.zip
              (d (intClip px 0 ((Ws : Int) - 1)) (intClip py 0 ((Hs : Int) - 1))))))
            NF.nan NF.nan) ∧
    (∀ t ∈ wl_master, (∀ w ∈ wl_src, w < t) →
      np_interp t
        (dedupSorted (sortPairs (wl_src.zip
          (d (intClip px 0 ((Ws : Int) - 1)) (intClip py 0 ((Hs : Int) - 1))))))
        NF.nan NF.nan = NF.nan) ∧
    (∀ t ∈ wl_master, (∀ w ∈ wl_src, t < w) →
      np_interp t
        (dedupSorted (sortPairs (wl_src.zip
          (d (intClip px 0 ((Ws : Int) - 1)) (intClip py 0 ((Hs : Int) - 1))))))
        NF.nan NF.nan = NF.nan) ∧
    ((∀ w ∈ wl_src, ∀ t ∈ wl_master, w < t) →
      get_raw_spectrum_on_master env p_src px py wl_master
        = List.replicate wl_master.length NF.nan) := by
  have hkeys : ∀ p ∈ dedupSorted (sortPairs (wl_src.zip
      (d (intClip px 0 ((Ws : Int) - 1)) (intClip py 0 ((Hs : Int) - 1))))),
      (p : ℚ × NF).1 ∈ wl_src := by
    intro p hp
    have h1 := mem_sortPairs (mem_dedupSorted _ hp)
    exact (List.of_mem_zip (by exact h1)).1
  have hres : get_raw_spectrum_on_master env p_src px py wl_master
      = wl_master.map (fun t =>
          np_interp t
            (dedupSorted (sortPairs (wl_src.zip
              (d (intClip px 0 ((Ws : Int) - 1)) (intClip py 0 ((Hs : Int) - 1))))))
            NF.nan NF.nan) := by
    by_cases hB : wl_master.length = 0
    · rw [List.length_eq_zero] at hB
      subst hB
      simp [get_raw_spectrum_on_master, hdata, hwl]
    · simp only [get_raw_spectrum_on_master, hdata, hwl]
      rw [if_neg hB, if_neg hsrc, hs]
      simp only
      rw [if_neg (by simpa using hwl_src)]
  refine ⟨hres, ?_, ?_, ?_⟩
  · intro t ht hbelow
    exact np_interp_nan_above _ (fun p hp => hbelow p.1 (hkeys p hp))
  · intro t ht habove
    exact np_interp_nan_below _ (fun p hp => habove p.1 (hkeys p hp))
  · intro hall
    rw [hres]
    apply List.eq_replicate_iff.mpr
    refine ⟨by simp, ?_⟩
    intro b hb
    rw [List.mem_map] at hb
    obtain ⟨t, ht, rfl⟩ := hb
    exact np_interp_nan_above _ (fun p hp => hall p.1 (hkeys p hp) t ht)

/-- Witness for C8: a source `"b"` whose only wavelength (10) lies below
the master grid's minimum (100) exports an all-NaN row. -/
theorem C8_witness :
    get_raw_spectrum_on_master
      ⟨"a", some ((1, 1), fun _ _ => [NF.fin 1]), some [5],
        fun s => if s = "b" then some (((1, 1), fun _ _ => [NF.fin 7]), [10])
                 else none⟩
      "b" 0 0 [100]
      = List.replicate 1 NF.nan :=
  (C8_raw_spectrum_on_master _ "b" 0 0 [100] 1 1 (fun _ _ => [NF.fin 1]) [5]
    1 1 (fun _ _ => [NF.fin 7]) [10] rfl rfl (by decide) (by simp)
    (by simp)).2.2.2 (by
      intro w hw t ht
      rw [List.mem_singleton] at hw ht
      subst hw; subst ht
      norm_num)

/-- C9: polygon raw statistics (and the exported mean/std columns built from
them) do not depend on the processing configuration: two runs differing only
in `ProcCfg` (mode, denoise/smooth/SNV flags, window sizes, derivative
order) produce identical output, because `_compute_polygon_raw_stats` works
on raw untransformed values with NaN-aware mean and population standard
deviation (`ddof=0`) and never reads the processing state. -/
theorem C9_polygon_stats_noninterference (sqrtf : ℚ → ℚ) (env : PolyEnv)
    (cfg₁ cfg₂ : ProcCfg) (wl_master : List ℚ) (pg_src : String)
    (verts : List (Int × Int)) :
    compute_polygon_raw_stats sqrtf { env with cfg := cfg₁ } pg_src verts
      = compute_polygon_raw_stats sqrtf { env with cfg := cfg₂ } pg_src verts ∧
    export_polygon_columns sqrtf { env with cfg := cfg₁ } wl_master pg_src verts
      = export_polygon_columns sqrtf { env with cfg := cfg₂ } wl_master pg_src verts :=
  ⟨rfl, rfl⟩
